import Mathlib

/-!
Shallow embedding of `src/scripts/update_projects.py` (the filter / classify /
rank / merge pipeline of the repository).  Text is modelled as `List Char`
(`Str` below); Python's byte-for-byte string operations (strip, slicing with
negative indices, single-character `str.replace`, substring search) are
reproduced on that type.  Machine-independent Python integers are `Int`.
The HTTP fetch / config loading / CLI glue is out of scope, exactly as in the
specification; `update_readme`'s file read/write is modelled by taking the
document content as input and returning the updated content (an
`Except` error models the raised `RuntimeError`, in which case no updated
content exists, i.e. no write happens).
-/

namespace UpdateProjects

abbrev Str := List Char

/-- Python `str.isspace()`, the character set `str.strip()` / `rstrip()` /
`lstrip()` remove: ASCII whitespace, the separator controls FS/GS/RS/US,
NEL, NBSP, the Unicode Zs space separators, and the LS/PS line separators
(the set recognized by CPython). -/
def pyIsSpace (c : Char) : Bool :=
  [' ', '\t', '\n', '\x0b', '\x0c', '\r', '\x1c', '\x1d', '\x1e', '\x1f',
    '\x85', '\xa0', '\u1680', '\u2000', '\u2001', '\u2002', '\u2003',
    '\u2004', '\u2005', '\u2006', '\u2007', '\u2008', '\u2009', '\u200A',
    '\u2028', '\u2029', '\u202F', '\u205F', '\u3000'].contains c

/-- Python `str.lstrip()`. -/
def pyLstrip (s : Str) : Str := s.dropWhile pyIsSpace

/-- Python `str.rstrip()`. -/
def pyRstrip (s : Str) : Str := (s.reverse.dropWhile pyIsSpace).reverse

/-- Python `str.strip()`. -/
def pyStrip (s : Str) : Str := pyRstrip (pyLstrip s)

/-- Python `str.lower()` on one character (ASCII range, which is what
`lower()` does on the ASCII subset actually used by the script). -/
def pyLowerChar (c : Char) : Char :=
  if 'A' ≤ c ∧ c ≤ 'Z' then Char.ofNat (c.toNat + 32) else c

/-- Python `str.lower()`. -/
def pyLower (s : Str) : Str := s.map pyLowerChar

/-- Python `s[:k]` for an arbitrary (possibly negative) integer `k`. -/
def pyTake (k : Int) (s : List α) : List α :=
  if 0 ≤ k then s.take k.toNat else s.take (s.length - (-k).toNat)

/-- Python `s[a:b]` for natural indices `a`, `b` (empty when `b ≤ a`). -/
def pySlice (a b : Nat) (s : List α) : List α := (s.drop a).take (b - a)

/-- Python `s.find(pat)` (index of the first occurrence), as an `Option`. -/
def strFindAux (pat : Str) : Str → Nat → Option Nat
  | [], i => if pat.isPrefixOf ([] : Str) then some i else none
  | c :: t, i => if pat.isPrefixOf (c :: t) then some i else strFindAux pat t (i + 1)

def strFind (s pat : Str) : Option Nat := strFindAux pat s 0

/-- Python `sub in s` (contiguous-substring test). -/
def pyContains (s sub : Str) : Bool := (strFind s sub).isSome

/-- Python `str.strip("|")` (strip pipe characters from both ends),
as used by `parse_markdown_rows`. -/
def pyStripPipes (s : Str) : Str :=
  ((s.dropWhile (· == '|')).reverse.dropWhile (· == '|')).reverse

/-- Python `str.split("|")` (single-character separator; `""` splits to
`[""]`). -/
def pySplitOn (sep : Char) : Str → List Str
  | [] => [[]]
  | c :: t =>
    match pySplitOn sep t with
    | [] => [[]]
    | h :: rt => if c == sep then [] :: h :: rt else (c :: h) :: rt

/-- The line-boundary characters of Python `str.splitlines()` (the `\r\n`
pair is additionally treated as a single boundary): `\n`, `\r`, `\x0b`,
`\x0c`, `\x1c`-`\x1e`, `\x85`, `U+2028`, `U+2029`. -/
def isLineBreak (c : Char) : Bool :=
  ['\n', '\r', '\x0b', '\x0c', '\x1c', '\x1d', '\x1e', '\x85', '\u2028',
    '\u2029'].contains c

/-- Python `str.splitlines()`: the list of pieces between line boundaries,
before dropping a trailing empty piece. -/
def splitBreaks : Str → List Str
  | [] => [[]]
  | '\r' :: '\n' :: t => [] :: splitBreaks t
  | c :: t =>
    if isLineBreak c then [] :: splitBreaks t
    else
      match splitBreaks t with
      | [] => [[c]]
      | h :: rt => (c :: h) :: rt

/-- Python `str.splitlines()` (a trailing line break does not create a final
empty line; `"".splitlines() == []`). -/
def splitlinesPy (s : Str) : List Str :=
  let r := splitBreaks s
  if r.getLast? = some [] then r.dropLast else r

/-! ## Source constants (lines 14-19) -/

def AUTO_START : Str := "<!-- AUTO-GENERATED START -->".data
def AUTO_END : Str := "<!-- AUTO-GENERATED END -->".data
def TABLE_HEADER : Str := "| 类别 | 开发者 | 项目名称 | 链接 | 简介 |".data
def TABLE_DIVIDER : Str := "|---|---|---|---|---|".data

/-! ## `extract_url` (source lines 93-99)

`re.search(r"\((https?://[^)]+)\)", cell)` scans for the leftmost position
where the pattern matches: a `(`, then the literal scheme `https://` or
`http://`, then at least one character other than `)`, then `)`.  The
captured group is everything between the `(` and the first following `)`. -/

/-- Attempt the regex match anchored at the head of `l`; returns the captured
group on success. -/
def tryMatchAt (l : Str) : Option Str :=
  match l with
  | '(' :: rest =>
    (if ("https://".data).isPrefixOf rest then some 8
     else if ("http://".data).isPrefixOf rest then some 7
     else none).bind fun n =>
      let body := rest.takeWhile (fun c => c ≠ ')')
      if n < body.length ∧ body.length < rest.length then some body else none
  | _ => none

/-- Leftmost match of the parenthesised-URL pattern. -/
def findParenUrl : Str → Option Str
  | [] => none
  | c :: t =>
    match tryMatchAt (c :: t) with
    | some u => some u
    | none => findParenUrl t

def extract_url (cell : Str) : Str :=
  match findParenUrl cell with
  | some u => u
  | none =>
    if ("http://".data).isPrefixOf cell ∨ ("https://".data).isPrefixOf cell then cell
    else []

/-! ## `sanitize_cell` (source lines 102-103) and `truncate_text` (106-111) -/

/-- Python `text.replace("|", "／").replace("\n", " ").strip()`.  Both replacements
substitute a single character for a single character, so each `replace` is a
character map. -/
def sanitize_cell (text : Str) : Str :=
  pyStrip ((text.map fun c => if c = '|' then '／' else c).map
    fun c => if c = '\n' then ' ' else c)

def truncate_text (text : Str) (maxLen : Int) : Str :=
  if maxLen ≤ 0 then text
  else if (text.length : Int) ≤ maxLen then text
  else pyRstrip (pyTake (maxLen - 3) text) ++ "...".data

/-! ## `is_excluded_text` (source lines 114-119) -/

def is_excluded_text (text : Str) (excludeKeywords : List Str) : Bool :=
  excludeKeywords.any fun kw => pyContains (pyLower text) (pyLower kw)

/-! ## Data model

A table `Row` is the five-cell record `| 类别 | 开发者 | 项目名称 | 链接 | 简介 |`:
category, developer display, project name, markdown link cell, description.
All rows flowing through the pipeline have exactly five cells
(`build_table_rows` always constructs five, `parse_markdown_rows` keeps
`cols[:5]` of lines with at least five cells, `normalize_row` pads to five). -/

structure Row where
  category : Str
  developer : Str
  project : Str
  link : Str
  descr : Str
deriving DecidableEq, Repr

/-- The ranking record built inside `build_table_rows` (source lines 270-277). -/
structure Candidate where
  row : Row
  hasHomepage : Bool
  stars : Int
  pushedAt : Int
deriving DecidableEq, Repr

/-- One entry of the configured `categories` list: `{name, keywords}`. -/
structure CategoryRule where
  name : Str
  keywords : List Str
deriving DecidableEq, Repr

/-- A repository record as fetched from the search API, with exactly the
fields the script reads.  Optional JSON fields are `Option`; the
`pushed_at` ISO-8601 timestamp is modelled as an integer instant
(`parse_iso_time` is an order-isomorphism from timestamp strings, and the
script only ever compares timestamps). -/
structure Repo where
  name : Option Str
  description : Option Str
  ownerLogin : Str
  ownerType : Str
  topics : List Str
  stars : Int
  pushedAt : Option Int
  homepage : Option Str
  htmlUrl : Str
  fork : Bool
  archived : Bool
  disabled : Bool

/-! ## `classify_category` (source lines 122-135) -/

/-- The lowercase haystack `" ".join([name, description or "", " ".join(topics)]).lower()`. -/
def repo_haystack (repo : Repo) : Str :=
  pyLower ((repo.name.getD []) ++ ' ' :: (repo.description.getD []) ++
    ' ' :: (List.intercalate " ".data repo.topics))

def classify_category (repo : Repo) (categories : List CategoryRule) (default : Str) : Str :=
  match categories with
  | [] => default
  | c :: rest =>
    if c.keywords.any (fun kw => pyContains (repo_haystack repo) (pyLower kw)) then c.name
    else classify_category repo rest default

/-! ## `is_excluded_repo` (source lines 138-150) -/

def is_excluded_repo (repo : Repo) (excludeKeywords excludeTopics : List Str) : Bool :=
  let text := pyLower ((repo.name.getD []) ++ ' ' :: (repo.description.getD []))
  excludeKeywords.any (fun kw => pyContains text (pyLower kw)) ||
    (repo.topics.map pyLower).any (fun t => (excludeTopics.map pyLower).contains t)

/-! ## `parse_markdown_rows` (source lines 76-90) -/

/-- The slice `cols[:5]` of a parsed line packed into a `Row` (called with
`5 ≤ cols.length` only). -/
def rowOfCols (cols : List Str) : Row :=
  { category := cols.getD 0 [], developer := cols.getD 1 [],
    project := cols.getD 2 [], link := cols.getD 3 [], descr := cols.getD 4 [] }

/-- The per-line body of `parse_markdown_rows`' loop (source lines 78-89). -/
def parse_row_line (rawLine : Str) : Option Row :=
  let line := pyStrip rawLine
  if !(("|".data).isPrefixOf line) then none
  else if ("|---".data).isPrefixOf line then none
  else
    let cols := (pySplitOn '|' (pyStripPipes line)).map pyStrip
    if cols.length < 5 then none
    else if cols.getD 0 [] = "类别".data ∧ cols.getD 1 [] = "开发者".data then none
    else some (rowOfCols cols)

def parse_markdown_rows (block : Str) : List Row :=
  (splitlinesPy block).filterMap parse_row_line

/-! ## `build_table_text` (source lines 293-298) -/

def renderRow (r : Row) : Str :=
  "| ".data ++ r.category ++ " | ".data ++ r.developer ++ " | ".data ++
    r.project ++ " | ".data ++ r.link ++ " | ".data ++ r.descr ++ " |".data

def build_table_text (rows : List Row) : Str :=
  List.intercalate "\n".data (TABLE_HEADER :: TABLE_DIVIDER :: rows.map renderRow)

/-! ## The merge step of `update_readme` (source lines 316-348)

`update_readme` is split into the pure row-level merge (`merge_rows`, lines
316-348 minus the document splicing) and the document-level wrapper below;
the wrapper is their literal composition. -/

/-- Lines 317-325: retroactive pruning of excluded existing rows. -/
def prune_rows (rows : List Row) (excludeKeywords : List Str) : List Row :=
  rows.filter fun r => !is_excluded_text (r.project ++ ' ' :: r.descr) excludeKeywords

/-- Line 326: the dedup identity set `{extract_url(r[3]) | nonempty}`
(a Python `set`; modelled as the list of its members, only membership is
ever used). -/
def existing_urls (rows : List Row) : List Str :=
  (rows.map fun r => extract_url r.link).filter fun u => !u.isEmpty

/-- Lines 328-333: drop new rows whose extracted URL is already present. -/
def filter_new_rows (newRows : List Row) (urls : List Str) : List Row :=
  newRows.filter fun r =>
    let u := extract_url r.link
    u.isEmpty || !(urls.contains u)

/-- Lines 335-344: re-sanitize every cell and re-truncate the description. -/
def normalize_row (maxDescLen : Int) (r : Row) : Row :=
  { category := sanitize_cell r.category, developer := sanitize_cell r.developer,
    project := sanitize_cell r.project, link := sanitize_cell r.link,
    descr := sanitize_cell (truncate_text r.descr maxDescLen) }

/-- Lines 317-325 as a whole: the existing rows after the (conditional)
pruning pass. -/
def pruned_existing (existingRows : List Row) (excludeKeywords : List Str)
    (pruneExisting : Bool) : List Row :=
  if pruneExisting && !excludeKeywords.isEmpty
  then prune_rows existingRows excludeKeywords else existingRows

/-- Lines 317-348: the whole row-level merge; returns the final row list and
`count_added = len(filtered_new)`. -/
def merge_rows (existingRows newRows : List Row) (maxTotal maxDescLen : Int)
    (excludeKeywords : List Str) (pruneExisting : Bool) : List Row × Nat :=
  let pruned := pruned_existing existingRows excludeKeywords pruneExisting
  let filteredNew := filter_new_rows newRows (existing_urls pruned)
  let merged0 := (filteredNew ++ pruned).map (normalize_row maxDescLen)
  let merged := if maxTotal ≠ 0 ∧ maxTotal < (merged0.length : Int)
    then pyTake maxTotal merged0 else merged0
  (merged, filteredNew.length)

/-! ## `update_readme` (source lines 301-354) -/

def markerError : Str := "README 未找到自动更新标记区块".data

/-- The delimited block `content[start + len(AUTO_START) : end]` together
with the parse+merge result, or `none` when the marker check fails. -/
def update_readme_rows (content : Str) (newRows : List Row) (maxTotal maxDescLen : Int)
    (excludeKeywords : List Str) (pruneExisting : Bool) : Option (List Row × Nat) :=
  match strFind content AUTO_START, strFind content AUTO_END with
  | some s, some e =>
    if e < s then none
    else
      let block := pySlice (s + AUTO_START.length) e content
      some (merge_rows (parse_markdown_rows block) newRows maxTotal maxDescLen
        excludeKeywords pruneExisting)
  | _, _ => none

/-- Function `update_readme` with the file I/O made explicit: takes the document
content, returns the updated content and `count_added`, or the raised
`RuntimeError` message; on error no content is produced (nothing is
written). -/
def update_readme (content : Str) (newRows : List Row) (maxTotal maxDescLen : Int)
    (excludeKeywords : List Str) (pruneExisting : Bool) : Except Str (Str × Nat) :=
  match strFind content AUTO_START, strFind content AUTO_END with
  | some s, some e =>
    if e < s then .error markerError
    else
      let block := pySlice (s + AUTO_START.length) e content
      let mc := merge_rows (parse_markdown_rows block) newRows maxTotal maxDescLen
        excludeKeywords pruneExisting
      .ok (content.take s ++ AUTO_START ++ '\n' :: build_table_text mc.1 ++
        '\n' :: AUTO_END ++ content.drop (e + AUTO_END.length), mc.2)
  | _, _ => .error markerError

/-! ## The ranking step of `build_table_rows` (source lines 279-290)

Python's `list.sort(key=…, reverse=True)` is the stable descending sort by
the key: elements whose keys compare equal keep their original relative
order.  It is embedded as a stable insertion sort parameterised by the
strict `<` on keys. -/

/-- Insert `a` into `l` (already sorted descending), after every element
strictly greater and before every element less than or equal. -/
def insertDesc (lt : α → α → Bool) (a : α) : List α → List α
  | [] => [a]
  | b :: l => if lt a b then b :: insertDesc lt a l else a :: b :: l

/-- Stable descending sort by the strict comparison `lt`. -/
def sortDesc (lt : α → α → Bool) : List α → List α
  | [] => []
  | a :: l => insertDesc lt a (sortDesc lt l)

/-- Python `<` on `bool` (`False < True`). -/
def ltBool (a b : Bool) : Bool := !a && b

/-- Python `<` on the 3-tuple `(has_homepage, stars, pushed_at)`
(lexicographic). -/
def ltKey3 (a b : Bool × Int × Int) : Bool :=
  ltBool a.1 b.1 || (a.1 == b.1 &&
    (decide (a.2.1 < b.2.1) || (a.2.1 == b.2.1 && decide (a.2.2 < b.2.2))))

/-- Python `<` on the 2-tuple `(stars, pushed_at)` (lexicographic). -/
def ltKey2 (a b : Int × Int) : Bool :=
  decide (a.1 < b.1) || (a.1 == b.1 && decide (a.2 < b.2))

def key3 (c : Candidate) : Bool × Int × Int := (c.hasHomepage, c.stars, c.pushedAt)

def key2 (c : Candidate) : Int × Int := (c.stars, c.pushedAt)

def candidateLt3 (a b : Candidate) : Bool := ltKey3 (key3 a) (key3 b)

def candidateLt2 (a b : Candidate) : Bool := ltKey2 (key2 a) (key2 b)

/-- Source lines 279-290: sort the candidates (descending, stable) and keep
the first `max_new` rows. -/
def rank_candidates (candidates : List Candidate) (preferHomepage : Bool)
    (maxNew : Int) : List Row :=
  let sorted := if preferHomepage then sortDesc candidateLt3 candidates
    else sortDesc candidateLt2 candidates
  (pyTake maxNew sorted).map Candidate.row

/-! ## `build_table_rows` (source lines 204-290) -/

/-- The configuration values `build_table_rows` reads (source lines 205-218).
The activity cutoff `now − pushed_within_days` depends on the wall clock, so
it is passed in directly as `cutoff`. -/
structure BuildConfig where
  minStars : Int
  includeLocation : Bool
  maxDescLen : Int
  maxNew : Int
  excludeKeywords : List Str
  excludeTopics : List Str
  preferHomepage : Bool
  requireHomepage : Bool
  categoryDefault : Str
  categories : List CategoryRule

def startsHttp (s : Str) : Bool :=
  ("http://".data).isPrefixOf s || ("https://".data).isPrefixOf s

/-- The per-repository body of `build_table_rows`' loop (source lines
224-277): the filter predicates and the candidate construction.  The
memoised per-owner location fetch (`fetch_user_location`) is the external
collaborator, modelled as the pure map `lookup` from a login to the fetched
`location or ""` value; `fetch_user_location` strips it. -/
def repo_candidate (cfg : BuildConfig) (cutoff : Int) (lookup : Str → Str)
    (repo : Repo) : Option Candidate :=
  if repo.fork || repo.archived || repo.disabled then none
  else if is_excluded_repo repo cfg.excludeKeywords cfg.excludeTopics then none
  else if repo.ownerType ≠ "User".data then none
  else if repo.stars < cfg.minStars then none
  else
    match repo.pushedAt with
    | none => none
    | some pushed =>
      if pushed < cutoff then none
      else
        let ownerLogin := pyStrip repo.ownerLogin
        let location := pyStrip (lookup ownerLogin)
        let ownerDisplay :=
          if cfg.includeLocation && !ownerLogin.isEmpty && !location.isEmpty
          then ownerLogin ++ '(' :: location ++ [')'] else ownerLogin
        let projectName := match repo.name with
          | some n => if n.isEmpty then ownerLogin else n
          | none => ownerLogin
        let homepage := pyStrip (repo.homepage.getD [])
        let projectUrl := if startsHttp homepage then homepage else repo.htmlUrl
        let hasHomepage := !homepage.isEmpty
        if cfg.requireHomepage && !hasHomepage then none
        else
          let description := truncate_text
            (match repo.description with
             | some d => if d.isEmpty then "暂无简介".data else d
             | none => "暂无简介".data) cfg.maxDescLen
          let category := classify_category repo cfg.categories cfg.categoryDefault
          some { row :=
                  { category := sanitize_cell category,
                    developer := sanitize_cell ownerDisplay,
                    project := sanitize_cell projectName,
                    link := sanitize_cell ('[' :: projectName ++ ']' :: '(' :: projectUrl ++ [')']),
                    descr := sanitize_cell description },
                 hasHomepage := hasHomepage, stars := repo.stars, pushedAt := pushed }

def build_table_rows (repos : List Repo) (cfg : BuildConfig) (cutoff : Int)
    (lookup : Str → Str) : List Row :=
  rank_candidates (repos.filterMap (repo_candidate cfg cutoff lookup))
    cfg.preferHomepage cfg.maxNew

/-! ## Helper lemmas -/

theorem mem_of_mem_dropWhile {p : α → Bool} {l : List α} {a : α}
    (h : a ∈ l.dropWhile p) : a ∈ l :=
  (List.dropWhile_sublist p).subset h

theorem mem_of_mem_pyStrip {c : Char} {s : Str} (h : c ∈ pyStrip s) : c ∈ s := by
  unfold pyStrip pyRstrip pyLstrip at h
  exact mem_of_mem_dropWhile (List.mem_reverse.mp (mem_of_mem_dropWhile (List.mem_reverse.mp h)))

theorem length_pyRstrip_le (s : Str) : (pyRstrip s).length ≤ s.length := by
  unfold pyRstrip
  rw [List.length_reverse]
  calc (s.reverse.dropWhile pyIsSpace).length ≤ s.reverse.length :=
        (List.dropWhile_sublist pyIsSpace).length_le
    _ = s.length := List.length_reverse s

theorem length_pyStrip_le (s : Str) : (pyStrip s).length ≤ s.length := by
  unfold pyStrip pyLstrip
  calc (pyRstrip (s.dropWhile pyIsSpace)).length ≤ (s.dropWhile pyIsSpace).length :=
        length_pyRstrip_le _
    _ ≤ s.length := (List.dropWhile_sublist pyIsSpace).length_le

theorem length_sanitize_cell_le (s : Str) : (sanitize_cell s).length ≤ s.length := by
  unfold sanitize_cell
  calc (pyStrip ((s.map _).map _)).length ≤ ((s.map _).map _).length := length_pyStrip_le _
    _ = s.length := by simp

theorem pyTake_subset (k : Int) (l : List α) : pyTake k l ⊆ l := by
  unfold pyTake
  split <;> exact List.take_subset _ _

theorem pyTake_of_nonneg {k : Int} (h : 0 ≤ k) (l : List α) :
    pyTake k l = l.take k.toNat := if_pos h

theorem map_eq_self_of_mem {f : α → α} {l : List α} (h : ∀ a ∈ l, f a = a) :
    l.map f = l := by
  induction l with
  | nil => rfl
  | cons a t ih =>
    simp only [List.map_cons, h a (List.mem_cons_self a t),
      ih fun x hx => h x (List.mem_cons_of_mem a hx)]

theorem count_filter_of_pos [DecidableEq α] {p : α → Bool} {a : α} (ha : p a = true)
    (l : List α) : (l.filter p).count a = l.count a := by
  induction l with
  | nil => rfl
  | cons b t ih =>
    by_cases hb : b = a
    · subst hb
      simp [List.filter_cons, ha, List.count_cons, ih]
    · cases hp : p b <;>
        simp [List.filter_cons, hp, List.count_cons, hb, ih]

/-! ## Sanitization invariant -/

/-- The `Row`-field invariant from the spec's data model: no pipe character
and no newline. -/
def cleanCell (s : Str) : Prop := '|' ∉ s ∧ '\n' ∉ s

def cleanRow (r : Row) : Prop :=
  cleanCell r.category ∧ cleanCell r.developer ∧ cleanCell r.project ∧
    cleanCell r.link ∧ cleanCell r.descr

theorem sanitize_cell_clean (s : Str) : cleanCell (sanitize_cell s) := by
  constructor <;> intro h <;> unfold sanitize_cell at h <;>
    obtain ⟨b, hb, hbe⟩ := List.mem_map.mp (mem_of_mem_pyStrip h) <;>
    obtain ⟨a, _, hae⟩ := List.mem_map.mp hb
  · by_cases h2 : b = '\n'
    · simp [h2] at hbe
    · rw [if_neg h2] at hbe
      subst hbe
      by_cases h1 : a = '|'
      · simp [h1] at hae
      · rw [if_neg h1] at hae
        exact h1 hae
  · by_cases h2 : b = '\n'
    · rw [if_pos h2] at hbe
      exact absurd hbe (by decide)
    · rw [if_neg h2] at hbe
      exact h2 hbe

theorem normalize_row_clean (mdl : Int) (r : Row) : cleanRow (normalize_row mdl r) :=
  ⟨sanitize_cell_clean _, sanitize_cell_clean _, sanitize_cell_clean _,
    sanitize_cell_clean _, sanitize_cell_clean _⟩

/-! ## Claim C8 — `truncate_text` -/

/-- C8 counterexample: the claim fails for `0 < max_len < 3`.  At
`truncate_text("abcd", 2)` the Python slice index `max_len - 3 = -1` is
negative, so `text[:-1]` keeps 3 characters ("abcd" minus the last), more
than `max_len - 3`, and the result `"abc..."` has 6 > 2 characters. -/
theorem truncate_text_small_max_cex :
    truncate_text "abcd".data 2 = "abc...".data ∧
    ¬ ((("abc...".data).length : Int) ≤ 2) ∧
    ¬ ((("abc".data).length : Int) ≤ 2 - 3) := by decide

/-- C8 (amended): `truncate_text(s, 0)` returns `s` unchanged; for every
`max_len ≥ 3` with `len(s) > max_len` the result keeps the first
`max_len - 3` characters of `s` (at most `max_len - 3` of them), trims their
trailing whitespace and appends `"..."`, and the whole result has at most
`max_len` characters; `truncate_text("hello world", 8) = "hello..."`.
(For `max_len` equal to 1 or 2 the slice index `max_len - 3` is negative and
the bound fails, see the counterexample.) -/
theorem truncate_text_spec (s : Str) (maxLen : Int) :
    truncate_text s 0 = s ∧
    (3 ≤ maxLen → maxLen < (s.length : Int) →
      truncate_text s maxLen = pyRstrip (s.take (maxLen - 3).toNat) ++ "...".data ∧
      (((s.take (maxLen - 3).toNat).length : Int) ≤ maxLen - 3) ∧
      (((truncate_text s maxLen).length : Int) ≤ maxLen)) ∧
    truncate_text "hello world".data 8 = "hello...".data := by
  refine ⟨by unfold truncate_text; simp, ?_, by decide⟩
  intro h3 hlen
  have hne0 : ¬ (maxLen ≤ 0) := by omega
  have hne1 : ¬ ((s.length : Int) ≤ maxLen) := by omega
  have heq : truncate_text s maxLen = pyRstrip (s.take (maxLen - 3).toNat) ++ "...".data := by
    unfold truncate_text
    rw [if_neg hne0, if_neg hne1, pyTake_of_nonneg (by omega)]
  have hcast : (((maxLen - 3).toNat : Int)) = maxLen - 3 := Int.toNat_of_nonneg (by omega)
  have htake : (s.take (maxLen - 3).toNat).length ≤ (maxLen - 3).toNat :=
    List.length_take_le _ _
  have hstrip : (pyRstrip (s.take (maxLen - 3).toNat)).length ≤ (maxLen - 3).toNat :=
    le_trans (length_pyRstrip_le _) htake
  refine ⟨heq, by omega, ?_⟩
  rw [heq]
  rw [List.length_append]
  have h3' : ("...".data).length = 3 := by decide
  omega

/-- Witness for the amended C8 theorem at `s = "hello world"`, `max_len = 8`. -/
theorem truncate_text_spec_witness :
    truncate_text "hello world".data 8 =
      pyRstrip ("hello world".data.take ((8 - 3 : Int)).toNat) ++ "...".data :=
  ((truncate_text_spec "hello world".data 8).2.1 (by decide) (by decide)).1

/-! ## Claim C5 — missing or out-of-order markers are fatal -/

/-- C5: if the document does not contain both delimiter markers, or the
first occurrence of the end marker precedes the first occurrence of the
start marker, `update_readme` raises the fatal `RuntimeError` — in this
embedding it returns `Except.error` and produces no updated document, so
nothing is written and the document is left unchanged (all-or-nothing). -/
theorem update_readme_marker_fatal (content : Str) (newRows : List Row)
    (mt mdl : Int) (kws : List Str) (pr : Bool)
    (h : pyContains content AUTO_START = false ∨ pyContains content AUTO_END = false ∨
      ∃ s e, strFind content AUTO_START = some s ∧ strFind content AUTO_END = some e ∧
        e < s) :
    update_readme content newRows mt mdl kws pr = .error markerError := by
  unfold update_readme
  cases hs : strFind content AUTO_START with
  | none => cases he : strFind content AUTO_END <;> rfl
  | some s =>
    cases he : strFind content AUTO_END with
    | none => rfl
    | some e =>
      rcases h with h | h | ⟨s', e', hs', he', hlt⟩
      · rw [pyContains, hs] at h
        exact absurd h (by simp)
      · rw [pyContains, he] at h
        exact absurd h (by simp)
      · rw [hs] at hs'
        rw [he] at he'
        cases Option.some.inj hs'
        cases Option.some.inj he'
        simp [hlt]

/-- Witness for C5 on a document with no markers at all. -/
theorem update_readme_marker_fatal_witness :
    pyContains "no markers here".data AUTO_START = false ∧
    update_readme "no markers here".data [] 0 0 [] false = .error markerError :=
  ⟨by decide, update_readme_marker_fatal _ _ _ _ _ _ (Or.inl (by decide))⟩

/-! ## Claim C10 — rows without an extractable URL bypass dedup -/

/-- A five-cell row whose link cell `"x"` has no parenthesised URL and is not
a bare URL, so `extract_url` returns the empty string for it; all its cells
are already sanitized. -/
def plainRow : Row := ⟨"c".data, "d".data, "x".data, "x".data, "e".data⟩

/-- C10: a new row whose extracted URL is empty is never dropped by the
dedup filter of `update_readme` (line 331's `if url and url in existing_urls`
is false when `url` is empty), whatever the existing URLs are — its
multiplicity is fully preserved — and merging such a row into a table that
already contains the identical row appends it again, so such rows accumulate
across repeated runs. -/
theorem empty_url_rows_exempt_from_dedup (newRows : List Row) (urls : List Str)
    (r : Row) (h : extract_url r.link = []) :
    (filter_new_rows newRows urls).count r = newRows.count r ∧
    merge_rows [plainRow] [plainRow] 0 0 [] false = ([plainRow, plainRow], 1) := by
  constructor
  · unfold filter_new_rows
    apply count_filter_of_pos
    simp [h]
  · decide

/-- Witness for C10 at a concrete row list. -/
theorem empty_url_rows_exempt_from_dedup_witness :
    extract_url plainRow.link = [] ∧
    (filter_new_rows [plainRow] ["http://a".data]).count plainRow =
      List.count plainRow [plainRow] :=
  ⟨by decide,
    (empty_url_rows_exempt_from_dedup [plainRow] ["http://a".data] plainRow (by decide)).1⟩

/-! ## Claim C2 — bounded growth and first-`max_total` truncation -/

/-- C2: whenever `max_total > 0`, the merged table is exactly the first
`max_total` rows of (normalized) `filtered_new ++ existing` — new rows come
first, so existing older rows are dropped first — and in particular its
length is at most `max_total`; consequently any successful `update_readme`
run returns at most `max_total` rows. -/
theorem merge_bounded_by_max_total (content : Str) (existingRows newRows : List Row)
    (mt mdl : Int) (kws : List Str) (pr : Bool) (h0 : 0 < mt) :
    (merge_rows existingRows newRows mt mdl kws pr).1 =
      ((filter_new_rows newRows (existing_urls (pruned_existing existingRows kws pr)) ++
        pruned_existing existingRows kws pr).map (normalize_row mdl)).take mt.toNat ∧
    (((merge_rows existingRows newRows mt mdl kws pr).1.length : Int) ≤ mt) ∧
    (∀ rows cnt, update_readme_rows content newRows mt mdl kws pr = some (rows, cnt) →
      (rows.length : Int) ≤ mt) := by
  have key : ∀ ex : List Row, (merge_rows ex newRows mt mdl kws pr).1 =
      ((filter_new_rows newRows (existing_urls (pruned_existing ex kws pr)) ++
        pruned_existing ex kws pr).map (normalize_row mdl)).take mt.toNat := by
    intro ex
    unfold merge_rows
    dsimp only
    split
    · next hcond =>
      exact pyTake_of_nonneg (le_of_lt h0) _
    · next hcond =>
      rw [not_and_or] at hcond
      rcases hcond with hcond | hcond
      · exact absurd (by omega : mt ≠ 0) hcond
      · push_neg at hcond
        refine (List.take_of_length_le ?_).symm
        omega
  have hlen : ∀ ex : List Row, (((merge_rows ex newRows mt mdl kws pr).1.length : Int) ≤ mt) := by
    intro ex
    rw [key ex]
    have := List.length_take_le mt.toNat
      ((filter_new_rows newRows (existing_urls (pruned_existing ex kws pr)) ++
        pruned_existing ex kws pr).map (normalize_row mdl))
    omega
  refine ⟨key existingRows, hlen existingRows, ?_⟩
  intro rows cnt h
  unfold update_readme_rows at h
  cases hs : strFind content AUTO_START with
  | none => rw [hs] at h; cases hq : strFind content AUTO_END <;> rw [hq] at h <;> exact absurd h (by simp)
  | some s =>
    rw [hs] at h
    cases he : strFind content AUTO_END with
    | none => rw [he] at h; exact absurd h (by simp)
    | some e =>
      rw [he] at h
      have h' : (if e < s then (none : Option (List Row × Nat))
          else some (merge_rows (parse_markdown_rows
            (pySlice (s + AUTO_START.length) e content)) newRows mt mdl kws pr)) =
          some (rows, cnt) := h
      by_cases hlt : e < s
      · rw [if_pos hlt] at h'
        exact absurd h' (by simp)
      · rw [if_neg hlt] at h'
        have hr : rows = (merge_rows (parse_markdown_rows
            (pySlice (s + AUTO_START.length) e content)) newRows mt mdl kws pr).1 := by
          have := Option.some.inj h'
          rw [this]
        rw [hr]
        exact hlen _

/-- Witness for C2 at `max_total = 1` with two candidate rows. -/
theorem merge_bounded_by_max_total_witness :
    (0 : Int) < 1 ∧
    (((merge_rows [] [plainRow, plainRow] 1 0 [] false).1.length : Int) ≤ 1) :=
  ⟨by decide,
    (merge_bounded_by_max_total [] [] [plainRow, plainRow] 1 0 [] false (by decide)).2.1⟩

/-! ## Membership through the sort -/

theorem mem_insertDesc {lt : α → α → Bool} {a b : α} {l : List α} :
    b ∈ insertDesc lt a l ↔ b = a ∨ b ∈ l := by
  induction l with
  | nil => simp [insertDesc]
  | cons c t ih =>
    unfold insertDesc
    by_cases h : lt a c
    · rw [if_pos h]
      simp only [List.mem_cons, ih]
      tauto
    · rw [if_neg h]
      simp only [List.mem_cons]

theorem mem_sortDesc {lt : α → α → Bool} {b : α} {l : List α} :
    b ∈ sortDesc lt l ↔ b ∈ l := by
  induction l with
  | nil => simp [sortDesc]
  | cons a t ih =>
    unfold sortDesc
    rw [mem_insertDesc, ih]
    simp only [List.mem_cons]

theorem mem_rank_candidates {cands : List Candidate} {p : Bool} {mn : Int} {r : Row}
    (h : r ∈ rank_candidates cands p mn) : ∃ c ∈ cands, c.row = r := by
  unfold rank_candidates at h
  dsimp only at h
  obtain ⟨c, hc, hcr⟩ := List.mem_map.mp h
  have hin := pyTake_subset mn _ hc
  refine ⟨c, ?_, hcr⟩
  by_cases hp : p = true
  · rw [if_pos hp] at hin
    exact mem_sortDesc.mp hin
  · rw [if_neg hp] at hin
    exact mem_sortDesc.mp hin

theorem repo_candidate_row_clean {cfg : BuildConfig} {cutoff : Int} {lookup : Str → Str}
    {repo : Repo} {c : Candidate}
    (h : repo_candidate cfg cutoff lookup repo = some c) : cleanRow c.row := by
  unfold repo_candidate at h
  dsimp only at h
  repeat' split at h
  any_goals exact Option.noConfusion h
  all_goals
    cases Option.some.inj h
    exact ⟨sanitize_cell_clean _, sanitize_cell_clean _, sanitize_cell_clean _,
      sanitize_cell_clean _, sanitize_cell_clean _⟩

/-! ## Claim C9 — no field of any produced row contains a pipe or newline -/

/-- C9: `sanitize_cell` never outputs a pipe character or a newline (pipe
becomes the full-width `／`, newline a space, outer whitespace is trimmed);
every field of every row produced by `build_table_rows`, and of every row of
the table produced by `update_readme`'s merge, satisfies this invariant; and
`sanitize_cell("a|b\nc") = "a／b c"`. -/
theorem sanitize_and_row_invariant :
    (∀ s : Str, cleanCell (sanitize_cell s)) ∧
    (∀ repos cfg cutoff lookup r, r ∈ build_table_rows repos cfg cutoff lookup →
      cleanRow r) ∧
    (∀ existingRows newRows mt mdl kws pr r,
      r ∈ (merge_rows existingRows newRows mt mdl kws pr).1 → cleanRow r) ∧
    sanitize_cell "a|b\nc".data = "a／b c".data := by
  refine ⟨sanitize_cell_clean, ?_, ?_, by decide⟩
  · intro repos cfg cutoff lookup r h
    unfold build_table_rows at h
    obtain ⟨c, hc, hcr⟩ := mem_rank_candidates h
    obtain ⟨repo, _, heq⟩ := List.mem_filterMap.mp hc
    rw [← hcr]
    exact repo_candidate_row_clean heq
  · intro ex nw mt mdl kws pr r h
    have h0 : r ∈ (filter_new_rows nw (existing_urls (pruned_existing ex kws pr)) ++
        pruned_existing ex kws pr).map (normalize_row mdl) := by
      unfold merge_rows at h
      dsimp only at h
      split at h
      · exact pyTake_subset _ _ h
      · exact h
    obtain ⟨x, _, hx⟩ := List.mem_map.mp h0
    rw [← hx]
    exact normalize_row_clean _ _

/-- Witness for C9: a row of a concrete merged table is clean. -/
theorem sanitize_and_row_invariant_witness : cleanRow plainRow :=
  sanitize_and_row_invariant.2.2.1 [plainRow] [] 0 0 [] false plainRow (by decide)

/-! ## Claim C1 — URL uniqueness after a merge -/

/-- A document whose delimited auto-generated region is empty. -/
def emptyTableDoc : Str := AUTO_START ++ AUTO_END

/-- A row whose link cell carries the URL `http://a`. -/
def linkRow : Row := ⟨"c".data, "d".data, "x".data, "[x](http://a)".data, "e".data⟩

/-- C1 counterexample: the dedup only checks new rows against the *existing*
rows' URLs; two new rows with the same extracted URL are both added, so the
resulting table has two rows sharing the extracted URL `http://a`. -/
theorem merge_duplicate_urls_cex :
    update_readme_rows emptyTableDoc [linkRow, linkRow] 0 0 [] false =
      some ([linkRow, linkRow], 2) ∧
    extract_url linkRow.link = "http://a".data ∧
    ¬ ([linkRow, linkRow].map fun r => extract_url r.link).Nodup := by decide

/-- C1 (amended): after a merge, no *kept new* row has a nonempty extracted
URL equal to the extracted URL of any kept existing row (existing wins on
conflict).  Two new rows with the same URL, two pre-existing rows with the
same URL, or rows without an extractable URL can still yield duplicates. -/
theorem merged_new_row_urls_fresh (existingRows newRows : List Row) (kws : List Str)
    (pr : Bool) (r e : Row)
    (hr : r ∈ filter_new_rows newRows (existing_urls (pruned_existing existingRows kws pr)))
    (he : e ∈ pruned_existing existingRows kws pr) :
    extract_url r.link = [] ∨ extract_url r.link ≠ extract_url e.link := by
  by_cases hu : extract_url r.link = []
  · exact Or.inl hu
  · refine Or.inr fun heq => ?_
    have hp := List.of_mem_filter hr
    dsimp only at hp
    have hmem : extract_url r.link ∈ existing_urls (pruned_existing existingRows kws pr) := by
      unfold existing_urls
      refine List.mem_filter.mpr ⟨List.mem_map.mpr ⟨e, he, heq.symm⟩, ?_⟩
      simp [List.isEmpty_iff, hu]
    have hie : (extract_url r.link).isEmpty = false := by
      cases hcase : extract_url r.link with
      | nil => exact absurd hcase hu
      | cons a t => rfl
    have hcont : List.contains (existing_urls (pruned_existing existingRows kws pr))
        (extract_url r.link) = true := List.elem_iff.mpr hmem
    rw [hie, hcont] at hp
    simp at hp

/-- Witness for the amended C1 at a one-row table. -/
theorem merged_new_row_urls_fresh_witness :
    extract_url plainRow.link = [] ∨
      extract_url plainRow.link ≠ extract_url linkRow.link :=
  merged_new_row_urls_fresh [linkRow] [plainRow] [] false plainRow linkRow
    (by decide) (by decide)

/-! ## Claim C3 — merging an empty new-rows list -/

/-- A document whose auto-generated region holds a two-row table. -/
def twoRowDoc : Str :=
  AUTO_START ++
    "\n| a | b | c | [c](http://c) | d |\n| e | f | g | [g](http://g) | h |\n".data ++
    AUTO_END

def rowC : Row := ⟨"a".data, "b".data, "c".data, "[c](http://c)".data, "d".data⟩

def rowG : Row := ⟨"e".data, "f".data, "g".data, "[g](http://g)".data, "h".data⟩

/-- C3 counterexample: with an empty new-rows list the merge is *not* just a
normalization pass: on the same two-row document, `max_total = 0` returns
both (normalized) rows, but `max_total = 1` drops the second row entirely
(and pruning can likewise drop rows).  `count_added` is 0 in both runs. -/
theorem merge_empty_not_identity_cex :
    update_readme_rows twoRowDoc [] 1 0 [] false = some ([rowC], 0) ∧
    update_readme_rows twoRowDoc [] 0 0 [] false = some ([rowC, rowG], 0) ∧
    ([rowC] : List Row) ≠ [rowC, rowG] := by decide

/-- C3 (amended): merging an empty new-rows list returns exactly the parsed
existing rows after the single per-row normalization pass, with
`count_added = 0`, *provided* pruning is disabled (or no exclude keywords
are configured) and `max_total` is 0 or at least the number of parsed rows;
otherwise pruning or the row-count truncation can additionally drop rows. -/
theorem merge_empty_new_rows (existingRows : List Row) (mt mdl : Int)
    (kws : List Str) (pr : Bool)
    (h1 : pr = false ∨ kws = [])
    (h2 : mt = 0 ∨ (existingRows.length : Int) ≤ mt) :
    merge_rows existingRows [] mt mdl kws pr =
      (existingRows.map (normalize_row mdl), 0) ∧
    (∀ content s e, strFind content AUTO_START = some s →
      strFind content AUTO_END = some e → ¬ e < s →
      update_readme_rows content [] mt mdl kws pr =
        some (merge_rows (parse_markdown_rows
          (pySlice (s + AUTO_START.length) e content)) [] mt mdl kws pr)) := by
  constructor
  · have hpr : pruned_existing existingRows kws pr = existingRows := by
      unfold pruned_existing
      rcases h1 with h1 | h1 <;> rw [h1] <;> simp
    unfold merge_rows
    rw [hpr]
    dsimp only
    have hfn : filter_new_rows [] (existing_urls existingRows) = [] := rfl
    rw [hfn]
    simp only [List.nil_append, List.length_nil]
    rw [if_neg ?_]
    rcases h2 with h2 | h2
    · rw [h2]
      simp
    · rw [List.length_map]
      intro hc
      omega
  · intro content s e hs he hlt
    unfold update_readme_rows
    rw [hs, he]
    simp only [if_neg hlt]

/-- Witness for the amended C3 on a one-row table with `max_total = 5`. -/
theorem merge_empty_new_rows_witness :
    merge_rows [plainRow] [] 5 0 [] false = ([plainRow], 0) :=
  (merge_empty_new_rows [plainRow] 5 0 [] false (Or.inl rfl) (Or.inr (by decide))).1

/-! ## Claim C7 — classification -/

/-- C7: `classify_category` is a pure function (same record, rules and
default always give the same category), and it returns the name of the
*first* rule in configured order one of whose lowercased keywords occurs as
a substring of the lowercased search text `name + " " + description + " " +
" ".join(topics)`; when no rule matches it returns the default. -/
theorem classify_category_first_match (repo : Repo) (rules : List CategoryRule)
    (d : Str) :
    classify_category repo rules d = classify_category repo rules d ∧
    classify_category repo rules d =
      ((rules.find? fun c => c.keywords.any fun kw =>
          pyContains (repo_haystack repo) (pyLower kw)).map CategoryRule.name).getD d := by
  refine ⟨rfl, ?_⟩
  induction rules with
  | nil => rfl
  | cons c rest ih =>
    unfold classify_category
    by_cases h : (c.keywords.any fun kw =>
        pyContains (repo_haystack repo) (pyLower kw)) = true
    · rw [if_pos h]
      simp [List.find?_cons, h]
    · rw [if_neg h, ih]
      have h' : (c.keywords.any fun kw =>
          pyContains (repo_haystack repo) (pyLower kw)) = false := by
        rwa [Bool.not_eq_true] at h
      simp [List.find?_cons, h']

/-- A record whose search text contains both `web` and `tool`. -/
def overlapRepo : Repo :=
  { name := some "Web-Tool".data, description := some "a tool for the web".data,
    ownerLogin := "bob".data, ownerType := "User".data, topics := ["cli".data],
    stars := 3, pushedAt := some 10, homepage := none, htmlUrl := "https://h/x".data,
    fork := false, archived := false, disabled := false }

def ruleAlpha : CategoryRule := ⟨"alpha".data, ["tool".data]⟩

def ruleBeta : CategoryRule := ⟨"beta".data, ["web".data]⟩

/-- First-match-wins on overlapping keyword rules: swapping the rule order
swaps the result of `classify_category`, the earlier rule winning in each
order; an unmatched rule list yields the default. -/
theorem classify_category_order_sensitive :
    classify_category overlapRepo [ruleAlpha, ruleBeta] "其他工具".data = "alpha".data ∧
    classify_category overlapRepo [ruleBeta, ruleAlpha] "其他工具".data = "beta".data ∧
    classify_category overlapRepo [⟨"γ".data, ["zzz".data]⟩] "其他工具".data = "其他工具".data := by
  decide

/-! ## Claim C6 — ranking order, stability, truncation -/

theorem insertDesc_perm (lt : α → α → Bool) (a : α) (l : List α) :
    List.Perm (insertDesc lt a l) (a :: l) := by
  induction l with
  | nil => exact List.Perm.refl _
  | cons b t ih =>
    unfold insertDesc
    by_cases h : lt a b
    · rw [if_pos h]
      exact (ih.cons b).trans (List.Perm.swap a b t)
    · rw [if_neg h]

theorem sortDesc_perm (lt : α → α → Bool) (l : List α) :
    List.Perm (sortDesc lt l) l := by
  induction l with
  | nil => exact List.Perm.refl _
  | cons a t ih =>
    unfold sortDesc
    exact (insertDesc_perm lt a (sortDesc lt t)).trans (ih.cons a)

theorem pairwise_insertDesc (lt : α → α → Bool)
    (hasym : ∀ a b, lt a b = true → lt b a = false)
    (hnt : ∀ a b c, lt a b = false → lt b c = false → lt a c = false)
    (a : α) (l : List α) (hl : l.Pairwise fun x y => lt x y = false) :
    (insertDesc lt a l).Pairwise fun x y => lt x y = false := by
  induction l with
  | nil => simp [insertDesc]
  | cons b t ih =>
    rw [List.pairwise_cons] at hl
    obtain ⟨hb, ht⟩ := hl
    unfold insertDesc
    by_cases h : lt a b
    · rw [if_pos h, List.pairwise_cons]
      refine ⟨?_, ih ht⟩
      intro x hx
      rcases mem_insertDesc.mp hx with rfl | hx
      · exact hasym _ _ h
      · exact hb x hx
    · have ha : lt a b = false := by rwa [Bool.not_eq_true] at h
      rw [if_neg h, List.pairwise_cons]
      refine ⟨?_, List.pairwise_cons.mpr ⟨hb, ht⟩⟩
      intro x hx
      rcases List.mem_cons.mp hx with rfl | hx
      · exact ha
      · exact hnt a b x ha (hb x hx)

theorem pairwise_sortDesc (lt : α → α → Bool)
    (hasym : ∀ a b, lt a b = true → lt b a = false)
    (hnt : ∀ a b c, lt a b = false → lt b c = false → lt a c = false)
    (l : List α) :
    (sortDesc lt l).Pairwise fun x y => lt x y = false := by
  induction l with
  | nil => simp [sortDesc]
  | cons a t ih =>
    unfold sortDesc
    exact pairwise_insertDesc lt hasym hnt a _ ih

theorem filter_insertDesc {κ : Type} [DecidableEq κ] (lt : α → α → Bool) (key : α → κ)
    (hkey : ∀ x y, key x = key y → lt x y = false)
    (a : α) (l : List α) (k : κ) :
    (insertDesc lt a l).filter (fun x => decide (key x = k)) =
      if key a = k then a :: l.filter (fun x => decide (key x = k))
      else l.filter (fun x => decide (key x = k)) := by
  induction l with
  | nil => by_cases h : key a = k <;> simp [insertDesc, List.filter_cons, h]
  | cons b t ih =>
    unfold insertDesc
    by_cases h : lt a b
    · rw [if_pos h]
      by_cases hk : key a = k
      · have hbk : ¬ key b = k := by
          intro hbk
          have hkk : key a = key b := by rw [hk, hbk]
          have hf := hkey a b hkk
          rw [hf] at h
          exact Bool.noConfusion h
        rw [List.filter_cons, ih]
        simp [hk, hbk, List.filter_cons]
      · rw [List.filter_cons, ih]
        by_cases hbk : key b = k <;> simp [hk, hbk, List.filter_cons]
    · rw [if_neg h]
      by_cases hk : key a = k <;> simp [List.filter_cons, hk]

theorem filter_sortDesc {κ : Type} [DecidableEq κ] (lt : α → α → Bool) (key : α → κ)
    (hkey : ∀ x y, key x = key y → lt x y = false)
    (l : List α) (k : κ) :
    (sortDesc lt l).filter (fun x => decide (key x = k)) =
      l.filter (fun x => decide (key x = k)) := by
  induction l with
  | nil => rfl
  | cons a t ih =>
    unfold sortDesc
    rw [filter_insertDesc lt key hkey a _ k]
    by_cases hk : key a = k <;> simp [List.filter_cons, hk, ih]

theorem ltKey3_eq_true_iff (a b : Bool × Int × Int) :
    ltKey3 a b = true ↔
      (a.1 = false ∧ b.1 = true) ∨
      (a.1 = b.1 ∧ (a.2.1 < b.2.1 ∨ (a.2.1 = b.2.1 ∧ a.2.2 < b.2.2))) := by
  rcases a with ⟨a1, a2, a3⟩
  rcases b with ⟨b1, b2, b3⟩
  cases a1 <;> cases b1 <;> simp [ltKey3, ltBool]

theorem ltKey2_eq_true_iff (a b : Int × Int) :
    ltKey2 a b = true ↔ (a.1 < b.1 ∨ (a.1 = b.1 ∧ a.2 < b.2)) := by
  rcases a with ⟨a1, a2⟩
  rcases b with ⟨b1, b2⟩
  simp [ltKey2]

theorem ltKey3_eq_false_iff (a b : Bool × Int × Int) :
    ltKey3 a b = false ↔
      ¬ ((a.1 = false ∧ b.1 = true) ∨
        (a.1 = b.1 ∧ (a.2.1 < b.2.1 ∨ (a.2.1 = b.2.1 ∧ a.2.2 < b.2.2)))) := by
  rw [← ltKey3_eq_true_iff]
  cases h : ltKey3 a b <;> simp

theorem ltKey2_eq_false_iff (a b : Int × Int) :
    ltKey2 a b = false ↔ ¬ (a.1 < b.1 ∨ (a.1 = b.1 ∧ a.2 < b.2)) := by
  rw [← ltKey2_eq_true_iff]
  cases h : ltKey2 a b <;> simp

theorem ltKey3_asymm (a b : Bool × Int × Int) (h : ltKey3 a b = true) :
    ltKey3 b a = false := by
  rw [ltKey3_eq_true_iff] at h
  rw [ltKey3_eq_false_iff]
  rcases a with ⟨a1, a2, a3⟩
  rcases b with ⟨b1, b2, b3⟩
  cases a1 <;> cases b1 <;> simp_all <;> omega

theorem ltKey3_negtrans (a b c : Bool × Int × Int)
    (hab : ltKey3 a b = false) (hbc : ltKey3 b c = false) : ltKey3 a c = false := by
  rw [ltKey3_eq_false_iff] at hab hbc ⊢
  rcases a with ⟨a1, a2, a3⟩
  rcases b with ⟨b1, b2, b3⟩
  rcases c with ⟨c1, c2, c3⟩
  cases a1 <;> cases b1 <;> cases c1 <;> simp_all <;> omega

theorem ltKey3_irrefl (k : Bool × Int × Int) : ltKey3 k k = false := by
  rcases k with ⟨k1, k2, k3⟩
  cases k1 <;> simp [ltKey3, ltBool]

theorem ltKey2_asymm (a b : Int × Int) (h : ltKey2 a b = true) : ltKey2 b a = false := by
  rw [ltKey2_eq_true_iff] at h
  rw [ltKey2_eq_false_iff]
  omega

theorem ltKey2_negtrans (a b c : Int × Int)
    (hab : ltKey2 a b = false) (hbc : ltKey2 b c = false) : ltKey2 a c = false := by
  rw [ltKey2_eq_false_iff] at hab hbc ⊢
  omega

theorem ltKey2_irrefl (k : Int × Int) : ltKey2 k k = false := by
  rcases k with ⟨k1, k2⟩
  simp [ltKey2]

theorem candidateLt3_asymm (a b : Candidate) (h : candidateLt3 a b = true) :
    candidateLt3 b a = false := ltKey3_asymm _ _ h

theorem candidateLt3_negtrans (a b c : Candidate) (hab : candidateLt3 a b = false)
    (hbc : candidateLt3 b c = false) : candidateLt3 a c = false :=
  ltKey3_negtrans _ _ _ hab hbc

theorem candidateLt3_of_key_eq (x y : Candidate) (h : key3 x = key3 y) :
    candidateLt3 x y = false := by
  unfold candidateLt3
  rw [h]
  exact ltKey3_irrefl _

theorem candidateLt2_asymm (a b : Candidate) (h : candidateLt2 a b = true) :
    candidateLt2 b a = false := ltKey2_asymm _ _ h

theorem candidateLt2_negtrans (a b c : Candidate) (hab : candidateLt2 a b = false)
    (hbc : candidateLt2 b c = false) : candidateLt2 a c = false :=
  ltKey2_negtrans _ _ _ hab hbc

theorem candidateLt2_of_key_eq (x y : Candidate) (h : key2 x = key2 y) :
    candidateLt2 x y = false := by
  unfold candidateLt2
  rw [h]
  exact ltKey2_irrefl _

/-- The 100-star homepage-less candidate of the spec's ranking example. -/
def candA : Candidate :=
  ⟨⟨"t".data, "u".data, "A".data, "[A](http://hostA)".data, "dA".data⟩, false, 100, 0⟩

/-- The 50-star with-homepage candidate of the spec's ranking example. -/
def candB : Candidate :=
  ⟨⟨"t".data, "v".data, "B".data, "[B](http://hostB)".data, "dB".data⟩, true, 50, 0⟩

/-- C6: the ranking step of `build_table_rows` sorts the candidate list
descending by `(has_homepage, stars, pushed_at)` when `prefer_homepage` is
set and by `(stars, pushed_at)` otherwise (the output is a permutation of
the input that is pairwise non-ascending in the respective key), the sort is
stable (candidates with identical keys keep their pre-sort relative order:
filtering by any fixed key value is unchanged), and the output is truncated
to the first `max_new` rows.  On the spec's example, the 50-star homepage
candidate ranks first when `prefer_homepage` is true and the 100-star
candidate ranks first when it is false. -/
theorem rank_candidates_spec (cands : List Candidate) (prefer : Bool) (maxNew : Int)
    (hmn : 0 ≤ maxNew) :
    rank_candidates cands prefer maxNew =
      (pyTake maxNew (if prefer then sortDesc candidateLt3 cands
        else sortDesc candidateLt2 cands)).map Candidate.row ∧
    (∀ repos cfg cutoff lookup, build_table_rows repos cfg cutoff lookup =
      rank_candidates (repos.filterMap (repo_candidate cfg cutoff lookup))
        cfg.preferHomepage cfg.maxNew) ∧
    List.Perm (sortDesc candidateLt3 cands) cands ∧
    List.Perm (sortDesc candidateLt2 cands) cands ∧
    ((sortDesc candidateLt3 cands).Pairwise fun a b => candidateLt3 a b = false) ∧
    ((sortDesc candidateLt2 cands).Pairwise fun a b => candidateLt2 a b = false) ∧
    (∀ k, (sortDesc candidateLt3 cands).filter (fun c => decide (key3 c = k)) =
      cands.filter fun c => decide (key3 c = k)) ∧
    (∀ k, (sortDesc candidateLt2 cands).filter (fun c => decide (key2 c = k)) =
      cands.filter fun c => decide (key2 c = k)) ∧
    (rank_candidates cands prefer maxNew).length ≤ maxNew.toNat ∧
    rank_candidates [candA, candB] true 10 = [candB.row, candA.row] ∧
    rank_candidates [candA, candB] false 10 = [candA.row, candB.row] := by
  refine ⟨rfl, fun _ _ _ _ => rfl, sortDesc_perm _ _, sortDesc_perm _ _,
    pairwise_sortDesc candidateLt3 candidateLt3_asymm candidateLt3_negtrans cands,
    pairwise_sortDesc candidateLt2 candidateLt2_asymm candidateLt2_negtrans cands,
    fun k => filter_sortDesc candidateLt3 key3 candidateLt3_of_key_eq cands k,
    fun k => filter_sortDesc candidateLt2 key2 candidateLt2_of_key_eq cands k,
    ?_, by decide, by decide⟩
  unfold rank_candidates
  dsimp only
  rw [List.length_map, pyTake_of_nonneg hmn]
  exact List.length_take_le _ _

/-- Witness for C6 at the spec's two-candidate example. -/
theorem rank_candidates_spec_witness :
    (0 : Int) ≤ 10 ∧
    rank_candidates [candA, candB] true 10 = [candB.row, candA.row] :=
  ⟨by decide, (rank_candidates_spec [candA, candB] true 10 (by decide)).2.2.2.2.2.2.2.2.2.1⟩

/-! ## Claim C4 — idempotence of the merge

Supporting lemmas: `pyStrip`, `sanitize_cell` and (for bounded lengths)
`truncate_text` are idempotent, so one more normalization pass is the
identity on already-normalized rows. -/

theorem dropWhile_idem (p : α → Bool) (l : List α) :
    (l.dropWhile p).dropWhile p = l.dropWhile p := by
  induction l with
  | nil => rfl
  | cons a t ih => cases h : p a <;> simp [List.dropWhile_cons, h, ih]

theorem head?_dropWhile_false {p : α → Bool} {l : List α} {c : α}
    (h : (l.dropWhile p).head? = some c) : p c = false := by
  induction l with
  | nil => exact Option.noConfusion h
  | cons a t ih =>
    cases ha : p a
    · rw [List.dropWhile_cons, if_neg (by simp [ha])] at h
      cases Option.some.inj h
      exact ha
    · rw [List.dropWhile_cons, if_pos (by simp [ha])] at h
      exact ih h

theorem dropWhile_eq_self_of_head {p : α → Bool} {l : List α}
    (h : ∀ c, l.head? = some c → p c = false) : l.dropWhile p = l := by
  cases l with
  | nil => rfl
  | cons a t => rw [List.dropWhile_cons, if_neg (by simp [h a rfl])]

theorem pyRstrip_append (s : Str) :
    pyRstrip s ++ (s.reverse.takeWhile pyIsSpace).reverse = s := by
  unfold pyRstrip
  rw [← List.reverse_append]
  rw [List.takeWhile_append_dropWhile pyIsSpace s.reverse, List.reverse_reverse]

theorem head?_pyRstrip {s : Str} {c : Char} (h : (pyRstrip s).head? = some c) :
    s.head? = some c := by
  rw [← pyRstrip_append s]
  cases hps : pyRstrip s with
  | nil => rw [hps] at h; exact Option.noConfusion h
  | cons a t =>
    rw [hps] at h
    cases Option.some.inj h
    rfl

theorem pyRstrip_idem (s : Str) : pyRstrip (pyRstrip s) = pyRstrip s := by
  conv_lhs => unfold pyRstrip
  rw [List.reverse_reverse, dropWhile_idem]
  rfl

theorem pyLstrip_idem (s : Str) : pyLstrip (pyLstrip s) = pyLstrip s :=
  dropWhile_idem _ _

theorem pyLstrip_pyRstrip_of_lstripped (s : Str) :
    pyLstrip (pyRstrip (pyLstrip s)) = pyRstrip (pyLstrip s) := by
  apply dropWhile_eq_self_of_head
  intro c hc
  exact head?_dropWhile_false (head?_pyRstrip hc)

theorem pyStrip_idem (s : Str) : pyStrip (pyStrip s) = pyStrip s := by
  show pyRstrip (pyLstrip (pyRstrip (pyLstrip s))) = pyRstrip (pyLstrip s)
  rw [pyLstrip_pyRstrip_of_lstripped, pyRstrip_idem]

theorem sanitize_eq_self_of_clean_stripped {y : Str} (h1 : cleanCell y)
    (h2 : pyStrip y = y) : sanitize_cell y = y := by
  unfold sanitize_cell
  rw [map_eq_self_of_mem (fun c hc => if_neg (fun hc' : c = '|' => h1.1 (hc' ▸ hc))),
    map_eq_self_of_mem (fun c hc => if_neg (fun hc' : c = '\n' => h1.2 (hc' ▸ hc))), h2]

theorem pyStrip_sanitize_cell (s : Str) : pyStrip (sanitize_cell s) = sanitize_cell s := by
  unfold sanitize_cell
  exact pyStrip_idem _

theorem sanitize_cell_idem (s : Str) : sanitize_cell (sanitize_cell s) = sanitize_cell s :=
  sanitize_eq_self_of_clean_stripped (sanitize_cell_clean s) (pyStrip_sanitize_cell s)

theorem truncate_nonpos {maxLen : Int} (h : maxLen ≤ 0) (d : Str) :
    truncate_text d maxLen = d := by
  unfold truncate_text
  rw [if_pos h]

theorem truncate_of_length_le {maxLen : Int} {d : Str}
    (h : (d.length : Int) ≤ maxLen) : truncate_text d maxLen = d := by
  unfold truncate_text
  by_cases h0 : maxLen ≤ 0
  · rw [if_pos h0]
  · rw [if_neg h0, if_pos h]

theorem length_truncate_le {maxLen : Int} (h3 : 3 ≤ maxLen) (d : Str) :
    ((truncate_text d maxLen).length : Int) ≤ maxLen := by
  unfold truncate_text
  rw [if_neg (by omega : ¬ maxLen ≤ 0)]
  by_cases hl : (d.length : Int) ≤ maxLen
  · rw [if_pos hl]
    exact hl
  · rw [if_neg hl]
    rw [List.length_append, pyTake_of_nonneg (by omega)]
    have h1 : (pyRstrip (d.take (maxLen - 3).toNat)).length ≤ (maxLen - 3).toNat :=
      le_trans (length_pyRstrip_le _) (List.length_take_le _ _)
    have h2 : ("...".data).length = 3 := by decide
    have h4 : ((maxLen - 3).toNat : Int) = maxLen - 3 := Int.toNat_of_nonneg (by omega)
    omega

theorem normalize_row_idem {mdl : Int} (hmdl : mdl ≤ 0 ∨ 3 ≤ mdl) (r : Row) :
    normalize_row mdl (normalize_row mdl r) = normalize_row mdl r := by
  have hdesc : truncate_text (sanitize_cell (truncate_text r.descr mdl)) mdl =
      sanitize_cell (truncate_text r.descr mdl) := by
    rcases hmdl with h | h
    · exact truncate_nonpos h _
    · apply truncate_of_length_le
      have h1 : (sanitize_cell (truncate_text r.descr mdl)).length ≤
          (truncate_text r.descr mdl).length := length_sanitize_cell_le _
      have h2 : ((truncate_text r.descr mdl).length : Int) ≤ mdl := length_truncate_le h _
      omega
  unfold normalize_row
  dsimp only
  rw [sanitize_cell_idem, sanitize_cell_idem, sanitize_cell_idem, sanitize_cell_idem,
    hdesc, sanitize_cell_idem]

theorem mem_existing_urls {rows : List Row} {u : Str} :
    u ∈ existing_urls rows ↔ (∃ r ∈ rows, extract_url r.link = u) ∧ u ≠ [] := by
  unfold existing_urls
  rw [List.mem_filter, List.mem_map]
  constructor
  · rintro ⟨⟨r, hr, hru⟩, hne⟩
    refine ⟨⟨r, hr, hru⟩, fun hnil => ?_⟩
    rw [hnil] at hne
    exact Bool.noConfusion hne
  · rintro ⟨⟨r, hr, hru⟩, hne⟩
    refine ⟨⟨r, hr, hru⟩, ?_⟩
    cases hu : u with
    | nil => exact absurd hu hne
    | cons a t => rfl

theorem pruned_existing_no_prune (ex : List Row) (kws : List Str) :
    pruned_existing ex kws false = ex := by
  unfold pruned_existing
  simp

theorem merge_rows_no_truncate (ex nw : List Row) (mdl : Int) (kws : List Str)
    (pr : Bool) :
    merge_rows ex nw 0 mdl kws pr =
      ((filter_new_rows nw (existing_urls (pruned_existing ex kws pr)) ++
        pruned_existing ex kws pr).map (normalize_row mdl),
       (filter_new_rows nw (existing_urls (pruned_existing ex kws pr))).length) := by
  unfold merge_rows
  dsimp only
  rw [if_neg]
  intro hc
  exact hc.1 rfl

theorem filter_new_rows_eq_nil {nw : List Row} {urls : List Str}
    (h : ∀ r ∈ nw, extract_url r.link ≠ [] ∧
      List.contains urls (extract_url r.link) = true) :
    filter_new_rows nw urls = [] := by
  unfold filter_new_rows
  rw [List.filter_eq_nil_iff]
  intro r hr
  obtain ⟨hne, hc⟩ := h r hr
  have hie : (extract_url r.link).isEmpty = false := by
    cases hcase : extract_url r.link with
    | nil => exact absurd hcase hne
    | cons a t => rfl
  dsimp only
  rw [hie, hc]
  simp

/-! ### Render/parse round-trip

The table text rendered by `build_table_text` parses back to exactly the
same rows, provided every cell is strip-fixed (under the full Python
whitespace set), free of pipe characters and of every `str.splitlines()`
line-boundary character, and no row collides with the header line.  (The
provisos are necessary: a cell with a mid-cell vertical tab, form feed,
FS/GS/RS, NEL or LS/PS splits the rendered line and loses or mangles the
row.) -/

def cellSafe (s : Str) : Prop :=
  pyStrip s = s ∧ '|' ∉ s ∧ ∀ c ∈ s, isLineBreak c = false

def rowRenderSafe (r : Row) : Prop :=
  cellSafe r.category ∧ cellSafe r.developer ∧ cellSafe r.project ∧
    cellSafe r.link ∧ cellSafe r.descr ∧
    ¬ (r.category = "类别".data ∧ r.developer = "开发者".data)

theorem dropWhile_length_eq {p : α → Bool} {l : List α}
    (h : (l.dropWhile p).length = l.length) : l.dropWhile p = l := by
  induction l with
  | nil => rfl
  | cons a t ih =>
    cases ha : p a
    · rw [List.dropWhile_cons, if_neg (by simp [ha])]
    · rw [List.dropWhile_cons, if_pos (by simp [ha])] at h
      rw [List.length_cons] at h
      have hle := (List.dropWhile_sublist (l := t) p).length_le
      exact absurd h (by omega)

theorem pyStrip_eq_self_lstrip {l : Str} (h : pyStrip l = l) : pyLstrip l = l := by
  show l.dropWhile pyIsSpace = l
  have h1 : (pyStrip l).length = l.length := by rw [h]
  have h2 : (pyStrip l).length ≤ (l.dropWhile pyIsSpace).length := length_pyRstrip_le _
  have h3 : (l.dropWhile pyIsSpace).length ≤ l.length :=
    (List.dropWhile_sublist (l := l) pyIsSpace).length_le
  exact dropWhile_length_eq (by omega)

theorem pyStrip_eq_self_rstrip {l : Str} (h : pyStrip l = l) : pyRstrip l = l := by
  have hl := pyStrip_eq_self_lstrip h
  unfold pyStrip at h
  rwa [hl] at h

theorem head_not_space_of_lstrip_eq {l : Str} {c : Char} (h : pyLstrip l = l)
    (hc : l.head? = some c) : pyIsSpace c = false := by
  cases l with
  | nil => exact Option.noConfusion hc
  | cons a t =>
    have hac : a = c := Option.some.inj hc
    subst hac
    cases ha : pyIsSpace a
    · rfl
    · unfold pyLstrip at h
      rw [List.dropWhile_cons, if_pos (by simp [ha])] at h
      have hle := (List.dropWhile_sublist (l := t) pyIsSpace).length_le
      have hlen : (t.dropWhile pyIsSpace).length = (a :: t).length := by rw [h]
      rw [List.length_cons] at hlen
      exact absurd hlen (by omega)

theorem pyRstrip_concat_not_space {c : Char} (hc : pyIsSpace c = false) (x : Str) :
    pyRstrip (x ++ [c]) = x ++ [c] := by
  unfold pyRstrip
  rw [List.reverse_append]
  show ((c :: x.reverse).dropWhile pyIsSpace).reverse = x ++ [c]
  rw [List.dropWhile_cons, if_neg (by simp [hc]), List.reverse_cons, List.reverse_reverse]

theorem pyRstrip_concat_space (x : Str) : pyRstrip (x ++ [' ']) = pyRstrip x := by
  unfold pyRstrip
  rw [List.reverse_append]
  show ((' ' :: x.reverse).dropWhile pyIsSpace).reverse = (x.reverse.dropWhile pyIsSpace).reverse
  rw [List.dropWhile_cons, if_pos (by decide)]

theorem pyLstrip_cons_space (z : Str) : pyLstrip (' ' :: z) = pyLstrip z := by
  unfold pyLstrip
  rw [List.dropWhile_cons, if_pos (by decide)]

/-- Stripping a cell padded as `" c "` inside a rendered table line recovers
the cell, when the cell is already strip-fixed. -/
theorem pyStrip_pad {ci : Str} (hci : pyStrip ci = ci) :
    pyStrip (' ' :: (ci ++ [' '])) = ci := by
  have hl := pyStrip_eq_self_lstrip hci
  have hr := pyStrip_eq_self_rstrip hci
  unfold pyStrip
  rw [pyLstrip_cons_space]
  cases hc : ci with
  | nil => decide
  | cons a t =>
    rw [hc] at hl hr
    have ha : pyIsSpace a = false := head_not_space_of_lstrip_eq hl rfl
    rw [show (a :: t) ++ [' '] = a :: (t ++ [' ']) from rfl]
    rw [show pyLstrip (a :: (t ++ [' '])) = a :: (t ++ [' ']) from by
      unfold pyLstrip
      rw [List.dropWhile_cons, if_neg (by simp [ha])]]
    rw [show a :: (t ++ [' ']) = (a :: t) ++ [' '] from rfl]
    rw [pyRstrip_concat_space, hr]

theorem pySplitOn_cons (sep c : Char) (t : Str) :
    pySplitOn sep (c :: t) =
      match pySplitOn sep t with
      | [] => [[]]
      | h :: rt => if c == sep then [] :: h :: rt else (c :: h) :: rt := rfl

theorem pySplitOn_ne_nil (sep : Char) : ∀ l : Str, pySplitOn sep l ≠ []
  | [] => by simp [pySplitOn]
  | c :: t => by
    rw [pySplitOn_cons]
    cases h : pySplitOn sep t with
    | nil => exact absurd h (pySplitOn_ne_nil sep t)
    | cons a b =>
      by_cases hc : c == sep <;> simp [hc]

theorem pySplitOn_no_sep {sep : Char} : ∀ {a : Str}, sep ∉ a → pySplitOn sep a = [a]
  | [], _ => rfl
  | c :: t, h => by
    rw [pySplitOn_cons, pySplitOn_no_sep (fun hm => h (List.mem_cons_of_mem c hm))]
    have hc : (c == sep) = false :=
      beq_eq_false_iff_ne.mpr fun e => h (by rw [e]; exact List.mem_cons_self _ _)
    simp [hc]

theorem pySplitOn_append {sep : Char} : ∀ {a : Str} (b : Str), sep ∉ a →
    pySplitOn sep (a ++ sep :: b) = a :: pySplitOn sep b
  | [], b, _ => by
    show pySplitOn sep (sep :: b) = [] :: pySplitOn sep b
    rw [pySplitOn_cons]
    cases h : pySplitOn sep b with
    | nil => exact absurd h (pySplitOn_ne_nil sep b)
    | cons x y => simp
  | c :: t, b, h => by
    show pySplitOn sep (c :: (t ++ sep :: b)) = (c :: t) :: pySplitOn sep b
    rw [pySplitOn_cons, pySplitOn_append b (fun hm => h (List.mem_cons_of_mem c hm))]
    have hc : (c == sep) = false :=
      beq_eq_false_iff_ne.mpr fun e => h (by rw [e]; exact List.mem_cons_self _ _)
    simp [hc]

theorem splitBreaks_newline (t : Str) : splitBreaks ('\n' :: t) = [] :: splitBreaks t := rfl

theorem splitBreaks_cons_clean {c : Char} (hc : isLineBreak c = false) (t : Str) :
    splitBreaks (c :: t) =
      match splitBreaks t with
      | [] => [[c]]
      | h :: rt => (c :: h) :: rt := by
  have h2 : c ≠ '\r' := by
    intro e
    rw [e] at hc
    exact absurd hc (by decide)
  simp [splitBreaks, h2, hc]

theorem splitBreaks_line : ∀ {a : Str}, (∀ c ∈ a, isLineBreak c = false) →
    ∀ s, splitBreaks (a ++ '\n' :: s) = a :: splitBreaks s
  | [], _, s => splitBreaks_newline s
  | c :: t, h, s => by
    have hc := h c (List.mem_cons_self c t)
    show splitBreaks (c :: (t ++ '\n' :: s)) = (c :: t) :: splitBreaks s
    rw [splitBreaks_cons_clean hc,
      splitBreaks_line (fun x hx => h x (List.mem_cons_of_mem c hx)) s]

theorem splitBreaks_no_break : ∀ {a : Str}, (∀ c ∈ a, isLineBreak c = false) →
    splitBreaks a = [a]
  | [], _ => rfl
  | c :: t, h => by
    have hc := h c (List.mem_cons_self c t)
    rw [splitBreaks_cons_clean hc,
      splitBreaks_no_break (fun x hx => h x (List.mem_cons_of_mem c hx))]

theorem splitBreaks_intercalate : ∀ lines : List Str, lines ≠ [] →
    (∀ l ∈ lines, ∀ c ∈ l, isLineBreak c = false) →
    splitBreaks (List.intercalate "\n".data lines) = lines
  | [], h, _ => absurd rfl h
  | [a], _, hcl => by
    rw [show List.intercalate "\n".data [a] = a from by simp [List.intercalate]]
    exact splitBreaks_no_break (hcl a (List.mem_singleton.mpr rfl))
  | a :: b :: rest, _, hcl => by
    rw [show List.intercalate "\n".data (a :: b :: rest) =
        a ++ "\n".data ++ List.intercalate "\n".data (b :: rest) from by
      simp [List.intercalate, List.intersperse]]
    rw [List.append_assoc]
    rw [show "\n".data ++ List.intercalate "\n".data (b :: rest) =
        '\n' :: List.intercalate "\n".data (b :: rest) from rfl]
    rw [splitBreaks_line (hcl a (List.mem_cons_self a _)) _]
    rw [splitBreaks_intercalate (b :: rest) (by simp)
      (fun l hl => hcl l (List.mem_cons_of_mem a hl))]

theorem splitlinesPy_intercalate (lines : List Str) (hne : lines ≠ [])
    (hnn : ∀ l ∈ lines, l ≠ [])
    (hcl : ∀ l ∈ lines, ∀ c ∈ l, isLineBreak c = false) :
    splitlinesPy (List.intercalate "\n".data lines) = lines := by
  unfold splitlinesPy
  rw [splitBreaks_intercalate lines hne hcl]
  rw [if_neg]
  intro hl
  obtain ⟨hx, heq⟩ := List.mem_getLast?_eq_getLast (Option.mem_def.mpr hl)
  exact hnn _ (heq ▸ List.getLast_mem hx) rfl

theorem renderRow_shape (r : Row) :
    renderRow r = '|' :: ' ' :: ((r.category ++ ' ' :: '|' :: ' ' ::
      (r.developer ++ ' ' :: '|' :: ' ' :: (r.project ++ ' ' :: '|' :: ' ' ::
        (r.link ++ ' ' :: '|' :: ' ' :: r.descr)))) ++ [' ', '|']) := by
  simp [renderRow, List.append_assoc]

theorem mem_renderRow {c : Char} {r : Row} (hm : c ∈ renderRow r) :
    c = '|' ∨ c = ' ' ∨ c ∈ r.category ∨ c ∈ r.developer ∨ c ∈ r.project ∨
      c ∈ r.link ∨ c ∈ r.descr := by
  rw [renderRow_shape] at hm
  simp only [List.mem_cons, List.mem_append] at hm
  tauto

theorem renderRow_no_breaks {r : Row} (hs : rowRenderSafe r) :
    ∀ c ∈ renderRow r, isLineBreak c = false := by
  intro c hm
  obtain ⟨⟨_, _, hb1⟩, ⟨_, _, hb2⟩, ⟨_, _, hb3⟩, ⟨_, _, hb4⟩, ⟨_, _, hb5⟩, _⟩ := hs
  rcases mem_renderRow hm with h | h | h | h | h | h | h
  · rw [h]; decide
  · rw [h]; decide
  · exact hb1 c h
  · exact hb2 c h
  · exact hb3 c h
  · exact hb4 c h
  · exact hb5 c h

theorem renderRow_ne_nil (r : Row) : renderRow r ≠ [] := by
  rw [renderRow_shape]
  exact List.cons_ne_nil _ _

theorem pyStripPipes_render (W : Str) :
    pyStripPipes ('|' :: ' ' :: (W ++ [' ', '|'])) = ' ' :: (W ++ [' ']) := by
  unfold pyStripPipes
  rw [List.dropWhile_cons, if_pos (by decide), List.dropWhile_cons, if_neg (by decide)]
  rw [show W ++ [' ', '|'] = (W ++ [' ']) ++ ['|'] from by simp]
  rw [show (' ' :: ((W ++ [' ']) ++ ['|'])).reverse =
      '|' :: ((W ++ [' ']).reverse ++ [' ']) from by
    rw [List.reverse_cons, List.reverse_append]
    rfl]
  rw [List.dropWhile_cons, if_pos (by decide)]
  rw [show (W ++ [' ']).reverse = ' ' :: W.reverse from by
    rw [List.reverse_append]
    rfl]
  rw [show (' ' :: W.reverse) ++ [' '] = ' ' :: (W.reverse ++ [' ']) from rfl]
  rw [List.dropWhile_cons, if_neg (by decide)]
  rw [List.reverse_cons, List.reverse_append, List.reverse_reverse]
  simp

theorem pipe_not_mem_pad {ci : Str} (h : '|' ∉ ci) : '|' ∉ ' ' :: (ci ++ [' ']) := by
  intro hm
  rcases List.mem_cons.mp hm with he | hm2
  · exact absurd he (by decide)
  · rcases List.mem_append.mp hm2 with hm3 | hm3
    · exact h hm3
    · exact absurd (List.mem_singleton.mp hm3) (by decide)

theorem split_render_cols {c1 c2 c3 c4 c5 : Str} (h1 : '|' ∉ c1) (h2 : '|' ∉ c2)
    (h3 : '|' ∉ c3) (h4 : '|' ∉ c4) (h5 : '|' ∉ c5) :
    pySplitOn '|' (' ' :: ((c1 ++ ' ' :: '|' :: ' ' :: (c2 ++ ' ' :: '|' :: ' ' ::
      (c3 ++ ' ' :: '|' :: ' ' :: (c4 ++ ' ' :: '|' :: ' ' :: c5)))) ++ [' '])) =
      [' ' :: (c1 ++ [' ']), ' ' :: (c2 ++ [' ']), ' ' :: (c3 ++ [' ']),
       ' ' :: (c4 ++ [' ']), ' ' :: (c5 ++ [' '])] := by
  have e : ' ' :: ((c1 ++ ' ' :: '|' :: ' ' :: (c2 ++ ' ' :: '|' :: ' ' ::
      (c3 ++ ' ' :: '|' :: ' ' :: (c4 ++ ' ' :: '|' :: ' ' :: c5)))) ++ [' ']) =
      (' ' :: (c1 ++ [' '])) ++ '|' :: ((' ' :: (c2 ++ [' '])) ++ '|' ::
      ((' ' :: (c3 ++ [' '])) ++ '|' :: ((' ' :: (c4 ++ [' '])) ++ '|' ::
      (' ' :: (c5 ++ [' ']))))) := by
    simp [List.append_assoc]
  rw [e, pySplitOn_append _ (pipe_not_mem_pad h1), pySplitOn_append _ (pipe_not_mem_pad h2),
    pySplitOn_append _ (pipe_not_mem_pad h3), pySplitOn_append _ (pipe_not_mem_pad h4),
    pySplitOn_no_sep (pipe_not_mem_pad h5)]

theorem parse_row_line_render {r : Row} (hs : rowRenderSafe r) :
    parse_row_line (renderRow r) = some r := by
  obtain ⟨c1, c2, c3, c4, c5⟩ := r
  obtain ⟨⟨hst1, hp1, _⟩, ⟨hst2, hp2, _⟩, ⟨hst3, hp3, _⟩,
    ⟨hst4, hp4, _⟩, ⟨hst5, hp5, _⟩, hhdr⟩ := hs
  have hshape := renderRow_shape ⟨c1, c2, c3, c4, c5⟩
  dsimp only at hshape
  have hstrip : pyStrip (renderRow ⟨c1, c2, c3, c4, c5⟩) =
      renderRow ⟨c1, c2, c3, c4, c5⟩ := by
    rw [hshape]
    unfold pyStrip
    rw [show pyLstrip ('|' :: ' ' :: ((c1 ++ ' ' :: '|' :: ' ' :: (c2 ++ ' ' :: '|' ::
        ' ' :: (c3 ++ ' ' :: '|' :: ' ' :: (c4 ++ ' ' :: '|' :: ' ' :: c5)))) ++
        [' ', '|'])) = '|' :: ' ' :: ((c1 ++ ' ' :: '|' :: ' ' :: (c2 ++ ' ' :: '|' ::
        ' ' :: (c3 ++ ' ' :: '|' :: ' ' :: (c4 ++ ' ' :: '|' :: ' ' :: c5)))) ++
        [' ', '|']) from by
      unfold pyLstrip
      rw [List.dropWhile_cons, if_neg (by decide)]]
    rw [show '|' :: ' ' :: ((c1 ++ ' ' :: '|' :: ' ' :: (c2 ++ ' ' :: '|' :: ' ' ::
        (c3 ++ ' ' :: '|' :: ' ' :: (c4 ++ ' ' :: '|' :: ' ' :: c5)))) ++ [' ', '|']) =
        ('|' :: ' ' :: ((c1 ++ ' ' :: '|' :: ' ' :: (c2 ++ ' ' :: '|' :: ' ' ::
        (c3 ++ ' ' :: '|' :: ' ' :: (c4 ++ ' ' :: '|' :: ' ' :: c5)))) ++ [' '])) ++
        ['|'] from by simp]
    rw [pyRstrip_concat_not_space (by decide)]
  unfold parse_row_line
  dsimp only
  rw [hstrip, hshape]
  rw [show (("|".data).isPrefixOf ('|' :: ' ' :: ((c1 ++ ' ' :: '|' :: ' ' ::
      (c2 ++ ' ' :: '|' :: ' ' :: (c3 ++ ' ' :: '|' :: ' ' ::
      (c4 ++ ' ' :: '|' :: ' ' :: c5)))) ++ [' ', '|']))) = true from by
    simp [List.isPrefixOf]]
  rw [Bool.not_true, if_neg (by decide : ¬ (false = true))]
  rw [show (("|---".data).isPrefixOf ('|' :: ' ' :: ((c1 ++ ' ' :: '|' :: ' ' ::
      (c2 ++ ' ' :: '|' :: ' ' :: (c3 ++ ' ' :: '|' :: ' ' ::
      (c4 ++ ' ' :: '|' :: ' ' :: c5)))) ++ [' ', '|']))) = false from by
    simp [List.isPrefixOf]]
  rw [if_neg (by decide : ¬ (false = true))]
  rw [pyStripPipes_render, split_render_cols hp1 hp2 hp3 hp4 hp5]
  simp only [List.map_cons, List.map_nil]
  rw [pyStrip_pad hst1, pyStrip_pad hst2, pyStrip_pad hst3, pyStrip_pad hst4,
    pyStrip_pad hst5]
  rw [if_neg (by simp : ¬ ([c1, c2, c3, c4, c5].length < 5))]
  rw [if_neg (by exact hhdr :
    ¬ ([c1, c2, c3, c4, c5].getD 0 [] = "类别".data ∧
       [c1, c2, c3, c4, c5].getD 1 [] = "开发者".data))]
  rfl

theorem filterMap_render : ∀ rows : List Row, (∀ r ∈ rows, rowRenderSafe r) →
    (rows.map renderRow).filterMap parse_row_line = rows
  | [], _ => rfl
  | r :: rest, h => by
    rw [List.map_cons,
      List.filterMap_cons_some (parse_row_line_render (h r (List.mem_cons_self r rest))),
      filterMap_render rest (fun x hx => h x (List.mem_cons_of_mem r hx))]

/-- The table text rendered from safe rows parses back to exactly those
rows: the merge's dedup key set is computed from the same rows on the next
run. -/
theorem parse_build_table_roundtrip {rows : List Row}
    (hs : ∀ r ∈ rows, rowRenderSafe r) :
    parse_markdown_rows (build_table_text rows) = rows := by
  unfold parse_markdown_rows build_table_text
  rw [splitlinesPy_intercalate]
  · rw [List.filterMap_cons_none (by decide : parse_row_line TABLE_HEADER = none),
      List.filterMap_cons_none (by decide : parse_row_line TABLE_DIVIDER = none)]
    exact filterMap_render rows hs
  · simp
  · intro l hl
    rcases List.mem_cons.mp hl with rfl | hl
    · decide
    rcases List.mem_cons.mp hl with rfl | hl
    · decide
    obtain ⟨r, hr, hre⟩ := List.mem_map.mp hl
    rw [← hre]
    exact renderRow_ne_nil r
  · intro l hl
    rcases List.mem_cons.mp hl with rfl | hl
    · decide
    rcases List.mem_cons.mp hl with rfl | hl
    · decide
    obtain ⟨r, hr, hre⟩ := List.mem_map.mp hl
    rw [← hre]
    exact renderRow_no_breaks (hs r hr)

/-- C4 counterexample: running `update_readme` twice with the same new rows
does *not* always yield the same final table as running it once.  A row
whose link cell has no extractable URL (here the bare cell `"x"`) is exempt
from dedup, so the second run adds it again (`count_added = 1` both times)
and the final document differs from the single-run document. -/
theorem update_readme_not_idempotent_cex :
    ((update_readme emptyTableDoc [plainRow] 0 0 [] false).toOption.map Prod.snd =
      some 1) ∧
    (((update_readme emptyTableDoc [plainRow] 0 0 [] false).toOption.bind
      fun p => (update_readme p.1 [plainRow] 0 0 [] false).toOption).map Prod.snd =
      some 1) ∧
    ((update_readme emptyTableDoc [plainRow] 0 0 [] false).toOption.bind
      fun p => (update_readme p.1 [plainRow] 0 0 [] false).toOption) ≠
      (update_readme emptyTableDoc [plainRow] 0 0 [] false).toOption := by decide

/-- C4 (amended): a new row whose nonempty extracted URL equals the URL of a
row already in the table is never added, and consequently merging the same
new rows a second time into the table produced by a first merge is a no-op
(same rows, `count_added = 0`) — *provided* every new row has a nonempty
extracted URL that sanitization preserves, the same stability holds for the
existing rows' link cells, no pruning applies, `max_total = 0` (no
truncation), and `max_description_length` is 0 or at least 3.  Moreover the
rendered table re-parses to exactly the merged rows when every cell is
strip-fixed (under Python's full whitespace set) and free of pipe characters
and of every `str.splitlines()` line-boundary character (`\n`, `\r`,
`\x0b`, `\x0c`, `\x1c`-`\x1e`, `\x85`, `U+2028`, `U+2029`), and no row
collides with the header — so the second `update_readme` run deduplicates
against the very rows the first run wrote.  Without those provisos a second
run can grow the table (see the counterexample: rows without an extractable
URL are re-added every run). -/
theorem merge_rows_idempotent (existingRows newRows : List Row) (mdl : Int)
    (hmdl : mdl ≤ 0 ∨ 3 ≤ mdl)
    (hnew : ∀ r ∈ newRows, extract_url r.link ≠ [] ∧
      extract_url (sanitize_cell r.link) = extract_url r.link)
    (hex : ∀ e ∈ existingRows, extract_url (sanitize_cell e.link) = extract_url e.link) :
    (merge_rows (merge_rows existingRows newRows 0 mdl [] false).1 newRows 0 mdl
      [] false = ((merge_rows existingRows newRows 0 mdl [] false).1, 0)) ∧
    (∀ rows : List Row, (∀ r ∈ rows, rowRenderSafe r) →
      parse_markdown_rows (build_table_text rows) = rows) := by
  refine ⟨?_, fun rows hrows => parse_build_table_roundtrip hrows⟩
  have hm1 : (merge_rows existingRows newRows 0 mdl [] false).1 =
      (filter_new_rows newRows (existing_urls existingRows) ++ existingRows).map
        (normalize_row mdl) := by
    rw [merge_rows_no_truncate, pruned_existing_no_prune]
  have hf2 : filter_new_rows newRows (existing_urls
      ((filter_new_rows newRows (existing_urls existingRows) ++ existingRows).map
        (normalize_row mdl))) = [] := by
    apply filter_new_rows_eq_nil
    intro r hr
    obtain ⟨hne, hstab⟩ := hnew r hr
    refine ⟨hne, List.elem_iff.mpr ?_⟩
    show extract_url r.link ∈ existing_urls
        ((filter_new_rows newRows (existing_urls existingRows) ++ existingRows).map
          (normalize_row mdl))
    by_cases hmem1 : extract_url r.link ∈ existing_urls existingRows
    · obtain ⟨⟨e, he, heu⟩, _⟩ := mem_existing_urls.mp hmem1
      refine mem_existing_urls.mpr ⟨⟨normalize_row mdl e,
        List.mem_map.mpr ⟨e, List.mem_append.mpr (Or.inr he), rfl⟩, ?_⟩, hne⟩
      show extract_url (sanitize_cell e.link) = extract_url r.link
      rw [hex e he, heu]
    · have hkeep : r ∈ filter_new_rows newRows (existing_urls existingRows) := by
        unfold filter_new_rows
        refine List.mem_filter.mpr ⟨hr, ?_⟩
        dsimp only
        have hc : List.contains (existing_urls existingRows) (extract_url r.link) =
            false := by
          rw [← Bool.not_eq_true]
          intro hc
          exact hmem1 (List.elem_iff.mp hc)
        rw [hc]
        simp
      refine mem_existing_urls.mpr ⟨⟨normalize_row mdl r,
        List.mem_map.mpr ⟨r, List.mem_append.mpr (Or.inl hkeep), rfl⟩, ?_⟩, hne⟩
      show extract_url (sanitize_cell r.link) = extract_url r.link
      exact hstab
  rw [hm1, merge_rows_no_truncate, pruned_existing_no_prune, hf2]
  simp only [List.nil_append, List.length_nil]
  rw [List.map_map]
  have hfun : normalize_row mdl ∘ normalize_row mdl = normalize_row mdl :=
    funext (normalize_row_idem hmdl)
  rw [hfun]

/-- Witness for the amended C4: one URL-carrying row merged into an empty
table; re-merging it is a no-op. -/
theorem merge_rows_idempotent_witness :
    merge_rows (merge_rows [] [linkRow] 0 0 [] false).1 [linkRow] 0 0 [] false =
      ((merge_rows [] [linkRow] 0 0 [] false).1, 0) :=
  (merge_rows_idempotent [] [linkRow] 0 (Or.inl (by decide))
    (by
      intro r hr
      rw [List.mem_singleton] at hr
      subst hr
      exact ⟨by decide, by decide⟩)
    (by
      intro e he
      exact absurd he (List.not_mem_nil e))).1

end UpdateProjects
